import Mathlib

/-!
Verification of the lizzen-web backend (src/backend/index.js): a shallow
embedding of the torrent-to-audio pipeline — candidate ranking, magnet
resolution, the torrent handle registry, file selection, the async job
lifecycle, range streaming, and the MusicBrainz rate limiter — together
with theorems settling the specification's claims about it.

Conventions of the embedding:
* JS strings are Lean `String`; `toLowerCase` is mapped ASCII lowering;
  `localeCompare` ordering is modelled as code-point lexicographic
  comparison; `String.prototype.includes` is substring containment.
* JS numbers are `Nat`/`Int` where the source only ever holds integers
  (counts, timestamps in milliseconds, scores after `Math.round`) and
  exact rationals (`Rat`) where the source divides.  Rational arithmetic
  is written with `Rat.divInt`-based helpers (`qAdd`, `qMul`, `qDiv`) so
  that every definition evaluates by kernel reduction.
* `Array.prototype.sort(cmp)` is a stable sort, modelled by
  `List.mergeSort` with the boolean comparator derived from `cmp`.
* Fallible/absent JSON fields are `Option`; JS truthiness tests on them
  are modelled explicitly (`none`/`some ""`/`some 0` are falsy).
-/

/-! ### Generic string helpers (JS primitives) -/

/-- Models `String.prototype.startsWith`. -/
def jsStartsWith (s p : String) : Bool := p.toList.isPrefixOf s.toList

/-- Models `String.prototype.endsWith`. -/
def jsEndsWith (s p : String) : Bool := p.toList.isSuffixOf s.toList

/-- Models `String.prototype.toLowerCase` on ASCII data. -/
def jsToLower (s : String) : String := String.mk (s.toList.map Char.toLower)

/-- Boolean infix test on character lists (used for `includes`). -/
def listIsInfixOf (sub : List Char) : List Char → Bool
  | [] => sub.isEmpty
  | c :: rest => sub.isPrefixOf (c :: rest) || listIsInfixOf sub rest

/-- Models `hay.includes(sub)` (substring containment). -/
def containsSub (hay sub : String) : Bool := listIsInfixOf sub.toList hay.toList

/-- The whitespace class of the regexes `/\s+/`, `/\s*/` (common ASCII cases). -/
def isWsChar (c : Char) : Bool :=
  c = ' ' || c = '\t' || c = '\n' || c = '\r' || c = '\x0b' || c = '\x0c'

/-- Worker for `splitWs`: `acc` is the current token (reversed), `inRun`
records whether we are inside a whitespace run whose token was already
emitted. -/
def splitWsAux : List Char → List Char → Bool → List String
  | [], acc, _ => [String.mk acc.reverse]
  | c :: rest, acc, inRun =>
    if isWsChar c then
      if inRun then splitWsAux rest [] true
      else String.mk acc.reverse :: splitWsAux rest [] true
    else splitWsAux rest (c :: acc) false

/-- Models `s.split(/\s+/)`: segments between maximal whitespace runs,
including the empty segments JS produces at a leading/trailing run
(`" a b "` ↦ `["", "a", "b", ""]`, `""` ↦ `[""]`). -/
def splitWs (s : String) : List String := splitWsAux s.toList [] false

/-- Worker for `jsSplitOnSpace`: `acc` is the current segment (reversed). -/
def splitCharAux (sep : Char) : List Char → List Char → List String
  | [], acc => [String.mk acc.reverse]
  | c :: rest, acc =>
    if c = sep then String.mk acc.reverse :: splitCharAux sep rest []
    else splitCharAux sep rest (c :: acc)

/-- Models `s.split(' ')`: split at every single space, keeping empty
segments (`"a  b"` ↦ `["a", "", "b"]`, `""` ↦ `[""]`). -/
def jsSplitOnSpace (s : String) : List String := splitCharAux ' ' s.toList []

/-- Code-point lexicographic comparison of character lists; models the
ordering induced by `a.localeCompare(b)` on the ASCII file/torrent names
the backend handles. -/
def charListLe : List Char → List Char → Bool
  | [], _ => true
  | _ :: _, [] => false
  | a :: as, b :: bs => if a = b then charListLe as bs else decide (a.toNat < b.toNat)

/-- String ordering used by every `.sort((a, b) => a.localeCompare(b))`. -/
def localeLe (a b : String) : Bool := charListLe a.toList b.toList

/-! ### Exact rational arithmetic (kernel-reducible JS number model) -/

/-- Exact rational addition via `Rat.divInt` (kernel-reducible). -/
def qAdd (a b : ℚ) : ℚ :=
  Rat.divInt (a.num * (b.den : Int) + b.num * (a.den : Int)) ((a.den : Int) * (b.den : Int))

/-- Exact rational multiplication via `Rat.divInt`. -/
def qMul (a b : ℚ) : ℚ := Rat.divInt (a.num * b.num) ((a.den : Int) * (b.den : Int))

/-- Exact rational division via `Rat.divInt`. -/
def qDiv (a b : ℚ) : ℚ := Rat.divInt (a.num * (b.den : Int)) ((a.den : Int) * b.num)

/-- Models JS `Math.round`: `⌊q + 1/2⌋`, computed as a floor division. -/
def jsRound (q : ℚ) : Int := Int.fdiv (2 * q.num + (q.den : Int)) (2 * (q.den : Int))

/-! ### Data model: torrent candidates (§3 TorrentCandidate) -/

/-- One indexer search result, as consumed by the scoring code.  Numeric
fields carry the values after the source's `parseInt(x) || 0` /
`parseFloat(x) || 0` defaulting; `publishDate` is the epoch-millisecond
timestamp of `torrent.publishDate` (0 when absent, which is falsy in JS). -/
structure Candidate where
  title : String
  seeders : Nat
  leechers : Nat
  size : ℚ
  publishDate : Int
deriving DecidableEq, Repr

/-- A candidate annotated with its computed score (the source attaches a
`score` field to the torrent object). -/
structure ScoredTorrent where
  cand : Candidate
  score : Int
deriving DecidableEq, Repr

/-- Milliseconds per day, `24 * 60 * 60 * 1000`. -/
def msPerDay : Int := 86400000

/-! ### Ranking Engine, precise variant
(src/backend/index.js lines 1082–1170, POST /api/find-best-torrent) -/

/-- Precise-variant score of one candidate (lines 1102–1167).  Summands in
source order: 10 per seeder; title-word similarity (fraction of
track-title words of length > 2 found in the candidate title) × 1000;
+500 artist substring; +300 album substring; +200 flac / +100 mp3;
−200 when `size > 500`; +50 when older than 30 days; +100 when the
seeder-to-leecher quotient exceeds 2. -/
def preciseScore (now : Int) (trackTitle artistName : String)
    (albumTitle : Option String) (c : Candidate) : ℚ :=
  let title := jsToLower c.title
  let trackLower := jsToLower trackTitle
  let artistLower := jsToLower artistName
  let seederScore : ℚ := ((c.seeders * 10 : Nat) : ℚ)
  let titleWords := splitWs trackLower
  let matchedWords := (titleWords.filter (fun w => decide (2 < w.length) && containsSub title w)).length
  let titleSimilarity : ℚ :=
    if 0 < titleWords.length then qDiv ((matchedWords : Nat) : ℚ) ((titleWords.length : Nat) : ℚ) else 0
  let titleScore := qMul titleSimilarity 1000
  let artistScore : ℚ := if !artistLower.isEmpty && containsSub title artistLower then 500 else 0
  let albumScore : ℚ :=
    match albumTitle with
    | some a => if !a.isEmpty && containsSub title (jsToLower a) then 300 else 0
    | none => 0
  let formatScore : ℚ := if containsSub title "flac" then 200 else if containsSub title "mp3" then 100 else 0
  let sizeScore : ℚ := if (500 : ℚ) < c.size then mkRat (-200) 1 else 0
  let ageInDays : ℚ := qDiv (((now - c.publishDate) : Int) : ℚ) ((msPerDay : Int) : ℚ)
  let ageScore : ℚ := if (30 : ℚ) < ageInDays then 50 else 0
  let ratioScore : ℚ :=
    if decide (0 < c.seeders) && decide (0 < c.leechers)
        && decide ((2 : ℚ) < qDiv ((c.seeders : Nat) : ℚ) ((c.leechers : Nat) : ℚ)) then 100 else 0
  [seederScore, titleScore, artistScore, albumScore, formatScore, sizeScore, ageScore, ratioScore].foldl qAdd 0

/-- The precise ranking path (lines 1082–1170): drop candidates newer than
two days or without seeders, attach `Math.round`ed scores, drop scores
≤ 0, stable-sort descending by score. -/
def preciseRankAndFilter (now : Int) (trackTitle artistName : String)
    (albumTitle : Option String) (cands : List Candidate) : List ScoredTorrent :=
  let twoDaysAgo := now - 2 * msPerDay
  let filtered := cands.filter (fun c => decide (c.publishDate ≤ twoDaysAgo) && decide (0 < c.seeders))
  let scored := filtered.map (fun c =>
    ScoredTorrent.mk c (jsRound (preciseScore now trackTitle artistName albumTitle c)))
  let positive := scored.filter (fun s => decide (0 < s.score))
  positive.mergeSort (fun a b => decide (b.score ≤ a.score))

/-! ### Ranking Engine, light variant and pre-load scoring -/

/-- Step-function seeder bonus shared by the light variant (lines
1406–1410) and the pre-load scoring (lines 1767–1771). -/
def stepSeederBonus (seeders : Nat) : Int :=
  if 50 < seeders then 100
  else if 20 < seeders then 80
  else if 10 < seeders then 60
  else if 5 < seeders then 40
  else if 0 < seeders then 20
  else 0

/-- Light-variant score of `scoreAndFilterTorrents` (lines 1400–1423):
step seeder bonus plus 15 per word of length > 2 of
`"artist track album"` found in the lowered title. -/
def lightScore (artistName trackTitle : String) (albumTitle : Option String)
    (c : Candidate) : Int :=
  let title := jsToLower c.title
  let searchTerms := jsToLower (artistName ++ " " ++ trackTitle ++ " " ++ albumTitle.getD "")
  let searchWords := (jsSplitOnSpace searchTerms).filter (fun w => decide (2 < w.length))
  stepSeederBonus c.seeders + 15 * (((searchWords.filter (fun w => containsSub title w)).length : Nat) : Int)

/-- `scoreAndFilterTorrents` (lines 1395–1426): keep seeders > 0, attach
light scores, stable-sort descending. -/
def scoreAndFilterTorrents (torrents : List Candidate) (artistName trackTitle : String)
    (albumTitle : Option String) : List ScoredTorrent :=
  let activeTorrents := torrents.filter (fun c => decide (0 < c.seeders))
  (activeTorrents.map (fun c => ScoredTorrent.mk c (lightScore artistName trackTitle albumTitle c))).mergeSort
    (fun a b => decide (b.score ≤ a.score))

/-- The Album Pre-loader's per-candidate score (lines 1759–1808): step
seeder bonus; per query word of length > 2 found in the title, +15 plus a
further +10 when it is an exact space-separated word of the title; a size
bonus (+10 for 50–500 MB, +5 for 500–1000 MB); a recency bonus (+5 under
30 days, +3 under 90, +1 under 365, skipped when `publishDate` is falsy). -/
def preloadScore (searchQuery : String) (now : Int) (c : Candidate) : Int :=
  let title := jsToLower c.title
  let searchTermsLower := jsToLower searchQuery
  let queryWords := jsSplitOnSpace searchTermsLower
  let titleWords := jsSplitOnSpace title
  let titleMatchScore : Int := queryWords.foldl (fun acc w =>
    if decide (2 < w.length) then
      if containsSub title w then acc + 15 + (if titleWords.contains w then 10 else 0) else acc
    else acc) 0
  let sizeScore : Int :=
    if (0 : ℚ) < c.size then
      let sizeMB := qDiv c.size (qMul 1024 1024)
      if decide ((50 : ℚ) ≤ sizeMB) && decide (sizeMB ≤ (500 : ℚ)) then 10
      else if decide ((500 : ℚ) < sizeMB) && decide (sizeMB ≤ (1000 : ℚ)) then 5
      else 0
    else 0
  let ageScore : Int :=
    if c.publishDate ≠ 0 then
      let ageDays := qDiv (((now - c.publishDate) : Int) : ℚ) (((1000 * 60 * 60 * 24 : Nat) : Nat) : ℚ)
      if ageDays < (30 : ℚ) then 5
      else if ageDays < (90 : ℚ) then 3
      else if ageDays < (365 : ℚ) then 1
      else 0
    else 0
  stepSeederBonus c.seeders + titleMatchScore + sizeScore + ageScore

/-- The Album Pre-loader's per-album ranking (lines 1746–1813): keep
seeders > 0, attach pre-load scores, stable-sort descending, take the top
20. -/
def preloadRankAlbum (searchQuery : String) (now : Int) (torrents : List Candidate) : List ScoredTorrent :=
  let activeTorrents := torrents.filter (fun c => decide (0 < c.seeders))
  ((activeTorrents.map (fun c => ScoredTorrent.mk c (preloadScore searchQuery now c))).mergeSort
    (fun a b => decide (b.score ≤ a.score))).take 20

/-- Follows the spec's words (§4.1, light variant), for the refinement
comparison of claim C8: "a step-function seeder bonus (100/80/60/40/20
for >50/>20/>10/>5/>0 seeders) plus +15 per shared query word (length >2)
found in the title, with no negative adjustments". -/
def lightVariantSpecScore (queryWords : List String) (c : Candidate) : Int :=
  stepSeederBonus c.seeders +
    15 * (((queryWords.filter (fun w => decide (2 < w.length) && containsSub (jsToLower c.title) w)).length : Nat) : Int)

/-! ### Magnet Resolver (`resolveMagnetUrl`, lines 2340–2391) -/

/-- Outcome of the single `axios.get(downloadUrl, { maxRedirects: 0 })`:
either a network/HTTP error (axios rejects, including non-2xx/3xx
statuses) or a response with an optional `Location` header and an
optional string body. -/
inductive NetResult where
  | netError
  | response (location : Option String) (body : Option String)
deriving DecidableEq, Repr

/-- The characters of the fixed pattern head `magnet:?`. -/
def magnetHeadChars : List Char := "magnet:?".toList

/-- One character of the regex class `[^"'\s]` (body of the magnet match). -/
def isMagnetBodyChar (c : Char) : Bool :=
  !(c = Char.ofNat 34 || c = Char.ofNat 39 || isWsChar c)

/-- The match of `/magnet:\?[^"'\s]+/` anchored at the head of `l`, if any. -/
def magnetMatchAt (l : List Char) : Option String :=
  if magnetHeadChars.isPrefixOf l then
    let rest := (l.drop magnetHeadChars.length).takeWhile isMagnetBodyChar
    if rest.isEmpty then none else some (String.mk (magnetHeadChars ++ rest))
  else none

/-- First match of `/magnet:\?[^"'\s]+/` in the text (the source's
`response.data.match(...)`). -/
def findMagnetInText : List Char → Option String
  | [] => none
  | c :: rest =>
    match magnetMatchAt (c :: rest) with
    | some m => some m
    | none => findMagnetInText rest

/-- Scan of the response body (lines 2368–2376); empty bodies are falsy in
JS but also contain no match, so the fallback result agrees. -/
def scanBodyForMagnet (body : Option String) (fallback : String) : String :=
  match body with
  | some b =>
    match findMagnetInText b.toList with
    | some m => m
    | none => fallback
  | none => fallback

/-- `resolveMagnetUrl` (lines 2340–2391): return magnet references
unchanged; for localhost references fetch once and prefer a magnet
`Location` header, then the first magnet match in the body; in every
other case — including any network error — return the input unchanged. -/
def resolveMagnetUrl (downloadUrl : String) (net : NetResult) : String :=
  if jsStartsWith downloadUrl "magnet:" then downloadUrl
  else if containsSub downloadUrl "localhost" || containsSub downloadUrl "127.0.0.1" then
    match net with
    | NetResult.netError => downloadUrl
    | NetResult.response location body =>
      match location with
      | some loc =>
        if jsStartsWith loc "magnet:" then loc else scanBodyForMagnet body downloadUrl
      | none => scanBodyForMagnet body downloadUrl
  else downloadUrl

/-! ### File Selector (POST /api/stream-torrent, lines 2525–2607) -/

/-- A torrent file entry: name and byte length. -/
structure TFile where
  name : String
  size : Nat
deriving DecidableEq, Repr

/-- The fixed audio extension set (line 2526). -/
def audioExtensions : List String :=
  [".mp3", ".flac", ".wav", ".m4a", ".aac", ".ogg", ".wma"]

/-- Eligibility filter on one file (lines 2527–2531). -/
def isAudioFile (f : TFile) : Bool :=
  audioExtensions.any (fun ext => jsEndsWith (jsToLower f.name) (jsToLower ext))

/-- `torrent.files.filter(...)` for audio files. -/
def filterAudioFiles (files : List TFile) : List TFile := files.filter isAudioFile

/-- `[...audioFiles].sort((a, b) => a.name.localeCompare(b.name))`. -/
def sortByName (files : List TFile) : List TFile :=
  files.mergeSort (fun a b => localeLe a.name b.name)

/-- Stage 1 (lines 2558–2560): exact case-insensitive name equality. -/
def findExactMatch (audioFiles : List TFile) (fileName : String) : Option TFile :=
  audioFiles.find? (fun f => jsToLower f.name == jsToLower fileName)

/-- Stage 2 (lines 2563–2568): case-insensitive substring either way. -/
def findSubstringMatch (audioFiles : List TFile) (fileName : String) : Option TFile :=
  audioFiles.find? (fun f =>
    containsSub (jsToLower f.name) (jsToLower fileName) ||
    containsSub (jsToLower fileName) (jsToLower f.name))

/-- Decimal value of a digit run (JS `parseInt` on the captured group). -/
def digitsToNat (ds : List Char) : Nat := ds.foldl (fun n c => 10 * n + (c.toNat - 48)) 0

/-- The captured group of `fileName.match(/(?:track\s*)?(\d+)/i)`: the
first maximal digit run of the string, as a number. -/
def extractTrackNumber (s : String) : Option Nat :=
  let ds := (s.toList.dropWhile (fun c => !c.isDigit)).takeWhile Char.isDigit
  if ds.isEmpty then none else some (digitsToNat ds)

/-- Stage 3 (lines 2570–2587): pick the extracted track number's file in
the lexicographically sorted list, 1-indexed, only when in range. -/
def findByTrackNumber (audioFiles : List TFile) (fileName : String) : Option TFile :=
  match extractTrackNumber fileName with
  | some n =>
    let sorted := sortByName audioFiles
    if decide (0 < n) && decide (n ≤ sorted.length) then sorted.get? (n - 1) else none
  | none => none

/-- The replacement `s.replace(/^\d+[\s\-\.]*/, '')`: strip one leading
digit run and the separator characters following it. -/
def stripLeadingTrackNum (s : String) : String :=
  let l := s.toList
  if (l.takeWhile Char.isDigit).isEmpty then s
  else String.mk ((l.dropWhile Char.isDigit).dropWhile (fun c => isWsChar c || c = '-' || c = '.'))

/-- Stage 4 (lines 2589–2597): fuzzy match after stripping leading track
numbers and lowering, substring either way. -/
def findFuzzyMatch (audioFiles : List TFile) (fileName : String) : Option TFile :=
  let cleanFileName := jsToLower (stripLeadingTrackNum fileName)
  audioFiles.find? (fun f =>
    let cleanFile := jsToLower (stripLeadingTrackNum f.name)
    containsSub cleanFile cleanFileName || containsSub cleanFileName cleanFile)

/-- The file-selection block (lines 2552–2607): staged matching against
the hint when one is supplied (JS truthiness: an empty hint is skipped),
then the fallback to the lexicographically first file after sorting. -/
def selectTargetFile (audioFiles : List TFile) (fileName : Option String) : Option TFile :=
  let fromHint : Option TFile :=
    match fileName with
    | some n =>
      if n.isEmpty then none
      else
        match findExactMatch audioFiles n with
        | some f => some f
        | none =>
          match findSubstringMatch audioFiles n with
          | some f => some f
          | none =>
            match findByTrackNumber audioFiles n with
            | some f => some f
            | none => findFuzzyMatch audioFiles n
    | none => none
  match fromHint with
  | some f => some f
  | none => (sortByName audioFiles).head?

/-- The file-count validation guard (lines 2541 and 2828):
`if (expectedFileCount && audioFiles.length !== expectedFileCount)`.
The JS `&&` tests truthiness, so `0` disables the check exactly like an
absent field. -/
def fileCountMismatch (expectedFileCount : Option Nat) (audioFileCount : Nat) : Bool :=
  match expectedFileCount with
  | some n => decide (n ≠ 0) && decide (audioFileCount ≠ n)
  | none => false

/-! ### Streaming Responder (GET /api/stream-file, lines 2970–3030) -/

/-- The response descriptor computed by the stream-file handler: HTTP
status, optional `Content-Range` header value, the final `Content-Length`
value, and the inclusive byte window handed to `createReadStream` (whose
length is the number of bytes served). -/
structure StreamResponse where
  status : Nat
  contentRange : Option String
  contentLength : Int
  streamStart : Nat
  streamEnd : Int
deriving DecidableEq, Repr

/-- The range-handling logic (lines 3003–3024) for a file of
`fileLength` bytes.  `range` carries the parsed header: `parts[0]` as a
number and, when present, `parts[1]`; a missing end defaults to
`fileLength - 1`.  Without a header the whole file is streamed with
status 200. -/
def streamFile (fileLength : Nat) (range : Option (Nat × Option Nat)) : StreamResponse :=
  match range with
  | none =>
    { status := 200, contentRange := none, contentLength := (fileLength : Int),
      streamStart := 0, streamEnd := (fileLength : Int) - 1 }
  | some (s, eo) =>
    let e : Int := match eo with | some x => (x : Int) | none => (fileLength : Int) - 1
    let chunksize : Int := e - (s : Int) + 1
    { status := 206,
      contentRange := some ("bytes " ++ toString s ++ "-" ++ toString e ++ "/" ++ toString fileLength),
      contentLength := chunksize, streamStart := s, streamEnd := e }

/-! ### Job Orchestrator (accept path lines 873–898, worker lines 1220–1376) -/

/-- AsyncJob status values as written by the source. -/
inductive JobStatus where
  | pending
  | processing
  | completed
  | failed
deriving DecidableEq, Repr

/-- The observable job record: status, progress percentage, and whether a
result payload / error message is attached. -/
structure JobState where
  status : JobStatus
  progress : Nat
  hasResult : Bool
  hasError : Bool
deriving DecidableEq, Repr

/-- The record stored at acceptance (lines 877–883): status `pending`,
progress 0, no result, no error. -/
def initialJob : JobState :=
  { status := JobStatus.pending, progress := 0, hasResult := false, hasError := false }

/-- `asyncJobs.set(jobId, { ...job, status: 'processing', progress: 10 })`
(lines 1225–1229). -/
def setProcessing (s : JobState) : JobState :=
  { s with status := JobStatus.processing, progress := 10 }

/-- `asyncJobs.set(jobId, { ...job, progress: p })` (lines 1237–1324). -/
def setProgress (p : Nat) (s : JobState) : JobState := { s with progress := p }

/-- The completion write (lines 1327–1361): status `completed`, progress
100, result attached (both with and without found torrents). -/
def setCompleted (s : JobState) : JobState :=
  { s with status := JobStatus.completed, progress := 100, hasResult := true }

/-- The catch-block write (lines 1366–1375): status `failed`, progress
100, error message attached. -/
def setFailed (s : JobState) : JobState :=
  { s with status := JobStatus.failed, progress := 100, hasError := true }

/-- The progress writes of `processTorrentSearchAsync`'s try block, in
program order (lines 1225, 1237, 1275, 1310, 1317, 1324). -/
def searchProgressWrites : List (JobState → JobState) :=
  [setProcessing, setProgress 20, setProgress 40, setProgress 50, setProgress 70, setProgress 90]

/-- How one background execution of `processTorrentSearchAsync` ends:
either the try block runs to its completion write, or an exception
escapes to the catch after `k + 1` of the progress writes (the first
statement of the try block is the `processing` write itself, so at least
it precedes any throw). -/
inductive SearchOutcome where
  | completes
  | throwsAfter (k : Nat)
deriving DecidableEq, Repr

/-- The job-table writes one execution performs after acceptance. -/
def searchJobWrites : SearchOutcome → List (JobState → JobState)
  | SearchOutcome.completes => searchProgressWrites ++ [setCompleted]
  | SearchOutcome.throwsAfter k => searchProgressWrites.take (k + 1) ++ [setFailed]

/-- States reached after each successive write, starting from `s`. -/
def traceFrom (s : JobState) : List (JobState → JobState) → List JobState
  | [] => []
  | f :: fs => f s :: traceFrom (f s) fs

/-- The full observable job history of one accepted async search:
the accepted state followed by the state after each write. -/
def jobTrace (o : SearchOutcome) : List JobState :=
  initialJob :: traceFrom initialJob (searchJobWrites o)

/-- The transitions the claimed state machine allows:
`pending → processing`, staying in `processing`, and
`processing → {completed, failed}`. -/
def allowedTransition (a b : JobStatus) : Bool :=
  (a = JobStatus.pending && b = JobStatus.processing) ||
  (a = JobStatus.processing && b = JobStatus.processing) ||
  (a = JobStatus.processing && (b = JobStatus.completed || b = JobStatus.failed))

/-- Adjacent-pair check of the claimed state machine along a trace:
every step is an allowed transition with non-decreasing progress. -/
def chainOk : List JobState → Bool
  | [] => true
  | [_] => true
  | a :: b :: rest =>
    allowedTransition a.status b.status && decide (a.progress ≤ b.progress) && chainOk (b :: rest)

/-- The terminal job record of one execution: the completion write ends
`completed` with a result and progress 100; the catch write ends `failed`
with an error and progress 100. -/
def searchFinalState : SearchOutcome → JobState
  | SearchOutcome.completes =>
    { status := JobStatus.completed, progress := 100, hasResult := true, hasError := false }
  | SearchOutcome.throwsAfter _ =>
    { status := JobStatus.failed, progress := 100, hasResult := false, hasError := true }

/-! ### Torrent Handle Registry (POST /api/stream-torrent, lines 2425–2520)

The sync creation path runs, for a magnet not in `activeTorrents`:
`activeTorrents.get` (line 2426), then `torrentClient.add` (line 2467,
invoked synchronously when the awaited promise is built), then — only
after the `ready` event, up to 45 s later — `activeTorrents.set`
(line 2520).  The step relation below is that path cut at its only
suspension point (the `await` of the `ready` event). -/

/-- Registry-wide state for one magnet identifier: whether the magnet is
registered in `activeTorrents`, and how many times the swarm engine's
`add` has been invoked for it. -/
structure RegistryState where
  registered : Bool
  addCount : Nat
deriving DecidableEq, Repr

/-- One request's next step, by program counter: `0` = perform the
`activeTorrents.get` check (and, when absent, invoke `torrentClient.add`
and suspend awaiting `ready`); `1` = resume after `ready` and perform
`activeTorrents.set`; `2` = finished (reusing or owning a handle). -/
def stepRequest : RegistryState × Nat → RegistryState × Nat
  | (s, 0) => if s.registered then (s, 2) else ({ s with addCount := s.addCount + 1 }, 1)
  | (s, 1) => ({ s with registered := true }, 2)
  | (s, pc) => (s, pc)

/-- Two concurrent stream-torrent requests for the same magnet. -/
structure TwoRequests where
  sys : RegistryState
  pcA : Nat
  pcB : Nat
deriving DecidableEq, Repr

/-- Run the two requests under an explicit interleaving; `true` picks
request B's next step, `false` picks request A's. -/
def runSchedule : List Bool → TwoRequests → TwoRequests
  | [], st => st
  | pick :: rest, st =>
    if pick then
      let r := stepRequest (st.sys, st.pcB)
      runSchedule rest { sys := r.1, pcA := st.pcA, pcB := r.2 }
    else
      let r := stepRequest (st.sys, st.pcA)
      runSchedule rest { sys := r.1, pcA := r.2, pcB := st.pcB }

/-- Both requests start before the magnet is registered. -/
def initialTwoRequests : TwoRequests :=
  { sys := { registered := false, addCount := 0 }, pcA := 0, pcB := 0 }

/-! ### MusicBrainz rate limiter (lines 59–73) and its call sites -/

/-- The call instant produced by `rateLimitedMusicBrainzCall` when the
previous call happened at `lastCall` and the invocation arrives at `now`
(idealized: no other time passes between the wait and `Date.now()`):
wait out the remainder of the 1000 ms window, else call immediately. -/
def rateLimitedCallTime (lastCall now : Int) : Int :=
  if now - lastCall < 1000 then lastCall + 1000 else now

/-- The call instant of a direct `axios.get` to MusicBrainz (no limiter):
the request goes out immediately. -/
def directCallTime (_lastCall now : Int) : Int := now

/-- One MusicBrainz request site in src/backend/index.js: its line and
whether it routes through `rateLimitedMusicBrainzCall`. -/
structure MBCallSite where
  srcLine : Nat
  viaRateLimiter : Bool
deriving DecidableEq, Repr

/-- Every `MUSICBRAINZ_CONFIG.baseUrl` request site of the source:
lines 126, 131, 136 (`searchMusicBrainz`), 912, 945 (sync
find-best-torrent), 1243 (`processTorrentSearchAsync`) call
`rateLimitedMusicBrainzCall`; lines 1466 (POST /api/artist-albums), 1546,
1583 (POST /api/artist-details, via `retryApiCall`), 1990 (album
details), 2170 (artist cover art) call `axios.get` directly. -/
def mbCallSites : List MBCallSite :=
  [⟨126, true⟩, ⟨131, true⟩, ⟨136, true⟩, ⟨912, true⟩, ⟨945, true⟩, ⟨1243, true⟩,
   ⟨1466, false⟩, ⟨1546, false⟩, ⟨1583, false⟩, ⟨1990, false⟩, ⟨2170, false⟩]

/-! ## Theorems -/

/-- C10: when a stream-prepare request supplies `expectedFileCount = 0`,
the guard `if (expectedFileCount && ...)` tests truthiness, so the
file-count validation is skipped entirely and no FileCountMismatch error
can arise, whatever the eligible audio-file count is. -/
theorem fileCountMismatch_zero_disables_check :
    ∀ audioFileCount : Nat, fileCountMismatch (some 0) audioFileCount = false := by
  intro audioFileCount
  simp [fileCountMismatch]

/-- C7: with a range header `bytes=s-e` the handler answers 206 with
`Content-Range: bytes s-e/L` and a byte window of exactly `e - s + 1`
bytes; with only a start, the end defaults to `L - 1`; without a range
header it answers 200 with the full `L` bytes. -/
theorem streamFile_range_semantics :
    ∀ (fileLength s e : Nat),
      streamFile fileLength (some (s, some e)) =
        { status := 206,
          contentRange := some ("bytes " ++ toString s ++ "-" ++ toString (e : Int) ++ "/" ++ toString fileLength),
          contentLength := (e : Int) - (s : Int) + 1,
          streamStart := s, streamEnd := (e : Int) } ∧
      streamFile fileLength (some (s, none)) =
        { status := 206,
          contentRange := some ("bytes " ++ toString s ++ "-" ++ toString ((fileLength : Int) - 1) ++ "/" ++ toString fileLength),
          contentLength := (fileLength : Int) - 1 - (s : Int) + 1,
          streamStart := s, streamEnd := (fileLength : Int) - 1 } ∧
      streamFile fileLength none =
        { status := 200, contentRange := none, contentLength := (fileLength : Int),
          streamStart := 0, streamEnd := (fileLength : Int) - 1 } := by
  intro fileLength s e
  exact ⟨rfl, rfl, rfl⟩

/-- C1: the single-flight claim fails on the code.  In the interleaving
where both requests run the `activeTorrents.get` check before either
reaches `activeTorrents.set` (which only happens after the awaited
`ready` event), `torrentClient.add` is invoked twice for the same
not-yet-registered magnet identifier, creating two independent swarm
sessions; the serialized schedule invokes it once. -/
theorem concurrent_getOrCreate_double_add :
    (runSchedule [false, true, false, true] initialTwoRequests).sys.addCount = 2 ∧
    (runSchedule [false, true, false, true] initialTwoRequests).pcA = 2 ∧
    (runSchedule [false, true, false, true] initialTwoRequests).pcB = 2 ∧
    (runSchedule [false, false, true, true] initialTwoRequests).sys.addCount = 1 := by
  decide

/-- Helper: going through `rateLimitedMusicBrainzCall` does guarantee the
1000 ms spacing from the previously recorded call instant. -/
theorem rateLimitedCallTime_spacing :
    ∀ lastCall now : Int, lastCall ≤ now → 1000 ≤ rateLimitedCallTime lastCall now - lastCall := by
  intro lastCall now h
  unfold rateLimitedCallTime
  split <;> omega

/-- C9: not every MusicBrainz request is serialized through the shared
rate limiter — line 1466 (POST /api/artist-albums) calls `axios.get`
directly — and in the trace where a direct call arrives 200 ms after a
rate-limited call went out, the two consecutive metadata calls are
separated by only 200 ms < 1000 ms. -/
theorem musicbrainz_limiter_bypassed :
    MBCallSite.mk 1466 false ∈ mbCallSites ∧
    ¬ (∀ site ∈ mbCallSites, site.viaRateLimiter = true) ∧
    directCallTime (rateLimitedCallTime 0 500) 1200 - rateLimitedCallTime 0 500 = 200 ∧
    ¬ (1000 ≤ directCallTime (rateLimitedCallTime 0 500) 1200 - rateLimitedCallTime 0 500) := by
  decide

/-- Helper: a match produced by `magnetMatchAt` starts with `magnet:`. -/
theorem magnetMatchAt_starts (l : List Char) (m : String)
    (h : magnetMatchAt l = some m) : jsStartsWith m "magnet:" = true := by
  unfold magnetMatchAt at h
  split at h
  · simp only [] at h
    split at h
    · exact absurd h (by simp)
    · rw [Option.some.injEq] at h
      subst h
      have hpre : "magnet:".toList <+: magnetHeadChars ++ (l.drop magnetHeadChars.length).takeWhile isMagnetBodyChar := by
        refine List.IsPrefix.trans ?_ (List.prefix_append _ _)
        decide
      simpa [jsStartsWith] using List.isPrefixOf_iff_prefix.mpr hpre
  · exact absurd h (by simp)

/-- Helper: any match found in a body text starts with `magnet:`. -/
theorem findMagnetInText_starts :
    ∀ (l : List Char) (m : String), findMagnetInText l = some m →
      jsStartsWith m "magnet:" = true := by
  intro l
  induction l with
  | nil => intro m h; simp [findMagnetInText] at h
  | cons c rest ih =>
    intro m h
    unfold findMagnetInText at h
    cases hm : magnetMatchAt (c :: rest) with
    | some m0 =>
      rw [hm] at h
      cases h
      exact magnetMatchAt_starts _ _ hm
    | none =>
      rw [hm] at h
      exact ih m h

/-- C3: the magnet resolver is a total function of its input and the
network outcome: a reference that already starts with `magnet:` is
returned unchanged; any network error returns the input unchanged; and
in every case, the result is either the input unchanged (resolution
failed) or a string starting with `magnet:` (so it never throws and only
returns the original reference on failure to find a magnet identifier). -/
theorem resolveMagnetUrl_contract :
    ∀ (downloadUrl : String) (net : NetResult),
      (jsStartsWith downloadUrl "magnet:" = true → resolveMagnetUrl downloadUrl net = downloadUrl) ∧
      (net = NetResult.netError → resolveMagnetUrl downloadUrl net = downloadUrl) ∧
      (resolveMagnetUrl downloadUrl net = downloadUrl ∨
        jsStartsWith (resolveMagnetUrl downloadUrl net) "magnet:" = true) := by
  intro downloadUrl net
  refine ⟨?_, ?_, ?_⟩
  · intro h
    simp [resolveMagnetUrl, h]
  · intro h
    subst h
    by_cases h1 : jsStartsWith downloadUrl "magnet:" <;>
      by_cases h2 : (containsSub downloadUrl "localhost" || containsSub downloadUrl "127.0.0.1") <;>
        simp [resolveMagnetUrl, h1, h2]
  · by_cases h1 : jsStartsWith downloadUrl "magnet:"
    · left
      simp [resolveMagnetUrl, h1]
    · by_cases h2 : (containsSub downloadUrl "localhost" || containsSub downloadUrl "127.0.0.1")
      · cases net with
        | netError => left; simp [resolveMagnetUrl, h1, h2]
        | response location body =>
          have hbody : scanBodyForMagnet body downloadUrl = downloadUrl ∨
              jsStartsWith (scanBodyForMagnet body downloadUrl) "magnet:" = true := by
            cases body with
            | none => left; rfl
            | some b =>
              cases hf : findMagnetInText b.data with
              | none => left; simp [scanBodyForMagnet, String.toList, hf]
              | some m =>
                right
                simpa [scanBodyForMagnet, String.toList, hf] using findMagnetInText_starts _ _ hf
          cases location with
          | none =>
            simpa [resolveMagnetUrl, h1, h2] using hbody
          | some loc =>
            by_cases hloc : jsStartsWith loc "magnet:"
            · right
              simp [resolveMagnetUrl, h1, h2, hloc]
            · simpa [resolveMagnetUrl, h1, h2, hloc] using hbody
      · left
        simp [resolveMagnetUrl, h1, h2]

/-- C3 witness: an already-resolved magnet identifier is returned
unchanged (idempotence), instantiated concretely. -/
theorem resolveMagnetUrl_contract_witness :
    resolveMagnetUrl "magnet:?xt=urn:btih:aaaa" NetResult.netError = "magnet:?xt=urn:btih:aaaa" :=
  (resolveMagnetUrl_contract "magnet:?xt=urn:btih:aaaa" NetResult.netError).1 (by decide)

/-- Helper: sorting by name preserves the number of files. -/
theorem sortByName_length (audioFiles : List TFile) :
    (sortByName audioFiles).length = audioFiles.length :=
  List.length_mergeSort ..

/-- Helper: the sorted list of a non-empty file list has a head. -/
theorem sortByName_head_isSome (audioFiles : List TFile) (hne : audioFiles ≠ []) :
    ((sortByName audioFiles).head?).isSome = true := by
  cases hs : sortByName audioFiles with
  | nil =>
    exfalso
    apply hne
    have hlen := sortByName_length audioFiles
    rw [hs] at hlen
    exact List.length_eq_zero.mp hlen.symm
  | cons a t => rfl

/-- Helper: the file-selection block always selects some file from a
non-empty eligible list, whatever the hint. -/
theorem selectTargetFile_isSome (audioFiles : List TFile) (hint : Option String)
    (hne : audioFiles ≠ []) : (selectTargetFile audioFiles hint).isSome = true := by
  have hhead := sortByName_head_isSome audioFiles hne
  rcases hint with _ | n
  · simpa [selectTargetFile] using hhead
  · by_cases hn : n.isEmpty
    · simpa [selectTargetFile, hn] using hhead
    · cases h1 : findExactMatch audioFiles n with
      | some f => simp [selectTargetFile, hn, h1]
      | none =>
        cases h2 : findSubstringMatch audioFiles n with
        | some f => simp [selectTargetFile, hn, h1, h2]
        | none =>
          cases h3 : findByTrackNumber audioFiles n with
          | some f => simp [selectTargetFile, hn, h1, h2, h3]
          | none =>
            cases h4 : findFuzzyMatch audioFiles n with
            | some f => simp [selectTargetFile, hn, h1, h2, h3, h4]
            | none => simpa [selectTargetFile, hn, h1, h2, h3, h4] using hhead

/-- C4: file selection is deterministic — the same file list and hint
always yield the same file — it selects some file of every non-empty
eligible list, and when the hint matches nothing at any priority stage
the selected file is the head of the lexicographically sorted list. -/
theorem selectTargetFile_deterministic_fallback :
    ∀ (audioFiles : List TFile) (hint : Option String),
      (∀ (files2 : List TFile) (hint2 : Option String),
        files2 = audioFiles → hint2 = hint →
        selectTargetFile files2 hint2 = selectTargetFile audioFiles hint) ∧
      (audioFiles ≠ [] → ∃ f, selectTargetFile audioFiles hint = some f) ∧
      (∀ fileName, hint = some fileName →
        findExactMatch audioFiles fileName = none →
        findSubstringMatch audioFiles fileName = none →
        findByTrackNumber audioFiles fileName = none →
        findFuzzyMatch audioFiles fileName = none →
        selectTargetFile audioFiles hint = (sortByName audioFiles).head?) := by
  intro audioFiles hint
  refine ⟨fun files2 hint2 e1 e2 => by rw [e1, e2], fun hne => ?_, ?_⟩
  · exact Option.isSome_iff_exists.mp (selectTargetFile_isSome audioFiles hint hne)
  · intro fileName he h1 h2 h3 h4
    subst he
    by_cases hn : fileName.isEmpty
    · simp [selectTargetFile, hn]
    · simp [selectTargetFile, hn, h1, h2, h3, h4]

unseal List.merge List.mergeSort in
/-- C4 witness: files `["b.mp3", "a.flac"]` with hint `"xyz"` (matching
nothing at any stage) select `"a.flac"`, the lexicographically first
name after sorting. -/
theorem selectTargetFile_deterministic_fallback_witness :
    selectTargetFile [TFile.mk "b.mp3" 10, TFile.mk "a.flac" 20] (some "xyz") =
      some (TFile.mk "a.flac" 20) := by
  have h := selectTargetFile_deterministic_fallback
    [TFile.mk "b.mp3" 10, TFile.mk "a.flac" 20] (some "xyz")
  rw [h.2.2 "xyz" rfl (by decide) (by decide) (by decide) (by decide)]
  decide

/-- C5: when a track number `n` is extracted from the hint, the `n`-th
file of the lexicographically sorted list is selected exactly when
`1 ≤ n ≤ count`; out of that range the stage yields nothing and selection
falls through to the later stages, and the selector still returns a file
of a non-empty list (no out-of-bounds access is possible: the in-range
lookup is `get?` at `n - 1 < count`). -/
theorem findByTrackNumber_bounds :
    ∀ (audioFiles : List TFile) (fileName : String) (n : Nat),
      extractTrackNumber fileName = some n →
      (0 < n ∧ n ≤ audioFiles.length →
        findByTrackNumber audioFiles fileName = (sortByName audioFiles).get? (n - 1) ∧
        (findByTrackNumber audioFiles fileName).isSome = true) ∧
      (¬ (0 < n ∧ n ≤ audioFiles.length) → findByTrackNumber audioFiles fileName = none) ∧
      (audioFiles ≠ [] → (selectTargetFile audioFiles (some fileName)).isSome = true) := by
  intro audioFiles fileName n hx
  have hlen := sortByName_length audioFiles
  refine ⟨?_, ?_, fun hne => selectTargetFile_isSome audioFiles (some fileName) hne⟩
  · rintro ⟨hpos, hle⟩
    have heq : findByTrackNumber audioFiles fileName = (sortByName audioFiles).get? (n - 1) := by
      simp [findByTrackNumber, hx, hlen, hpos, hle]
    refine ⟨heq, ?_⟩
    rw [heq]
    cases hg : (sortByName audioFiles).get? (n - 1) with
    | some f => rfl
    | none =>
      exfalso
      have := List.get?_eq_none.mp hg
      omega
  · intro hnot
    simp only [findByTrackNumber, hx]
    have : ¬ (decide (0 < n) && decide (n ≤ (sortByName audioFiles).length)) = true := by
      rw [hlen]
      simpa using fun hp hl => hnot ⟨hp, hl⟩
    simp [this]

unseal List.merge List.mergeSort in
/-- C5 witness: hint `"Track 3"` against five files selects the third
sorted file; hint `"Track 9"` against the same five files yields nothing
from the track-number stage. -/
theorem findByTrackNumber_bounds_witness :
    findByTrackNumber
        [TFile.mk "02 b.mp3" 2, TFile.mk "01 a.mp3" 1, TFile.mk "03 c.mp3" 3,
         TFile.mk "05 e.mp3" 5, TFile.mk "04 d.mp3" 4] "Track 3" =
      some (TFile.mk "03 c.mp3" 3) ∧
    findByTrackNumber
        [TFile.mk "02 b.mp3" 2, TFile.mk "01 a.mp3" 1, TFile.mk "03 c.mp3" 3,
         TFile.mk "05 e.mp3" 5, TFile.mk "04 d.mp3" 4] "Track 9" = none := by
  have h3 := findByTrackNumber_bounds
    [TFile.mk "02 b.mp3" 2, TFile.mk "01 a.mp3" 1, TFile.mk "03 c.mp3" 3,
     TFile.mk "05 e.mp3" 5, TFile.mk "04 d.mp3" 4] "Track 3" 3 (by decide)
  have h9 := findByTrackNumber_bounds
    [TFile.mk "02 b.mp3" 2, TFile.mk "01 a.mp3" 1, TFile.mk "03 c.mp3" 3,
     TFile.mk "05 e.mp3" 5, TFile.mk "04 d.mp3" 4] "Track 9" 9 (by decide)
  refine ⟨?_, h9.2.1 (by decide)⟩
  rw [(h3.1 (by decide)).1]
  decide

/-- Helper: the descending-score comparator sorts into a pairwise
non-increasing list. -/
theorem scoreDesc_pairwise (l : List ScoredTorrent) :
    (l.mergeSort (fun a b => decide (b.score ≤ a.score))).Pairwise
      (fun a b => b.score ≤ a.score) := by
  have h := @List.sorted_mergeSort ScoredTorrent (fun a b => decide (b.score ≤ a.score))
    (fun a b c hab hbc => by simp_all; omega)
    (fun a b => by simp; omega) l
  exact h.imp (by intro a b hb; simpa using hb)

/-- C2: the precise ranking path returns a list that is pairwise
non-increasing in score, contains only candidates with seeders > 0 that
were published at least two days before `now` and whose rounded score is
positive, contains every such candidate of the input, and is empty when
no candidate survives. -/
theorem preciseRankAndFilter_spec :
    ∀ (now : Int) (trackTitle artistName : String) (albumTitle : Option String)
      (cands : List Candidate),
      (preciseRankAndFilter now trackTitle artistName albumTitle cands).Pairwise
        (fun a b => b.score ≤ a.score) ∧
      (∀ s ∈ preciseRankAndFilter now trackTitle artistName albumTitle cands,
        s.cand ∈ cands ∧ 0 < s.cand.seeders ∧ s.cand.publishDate ≤ now - 2 * msPerDay ∧
        0 < s.score ∧ s.score = jsRound (preciseScore now trackTitle artistName albumTitle s.cand)) ∧
      (∀ c ∈ cands, c.publishDate ≤ now - 2 * msPerDay → 0 < c.seeders →
        0 < jsRound (preciseScore now trackTitle artistName albumTitle c) →
        ScoredTorrent.mk c (jsRound (preciseScore now trackTitle artistName albumTitle c)) ∈
          preciseRankAndFilter now trackTitle artistName albumTitle cands) ∧
      ((∀ c ∈ cands, ¬ (c.publishDate ≤ now - 2 * msPerDay ∧ 0 < c.seeders ∧
          0 < jsRound (preciseScore now trackTitle artistName albumTitle c))) →
        preciseRankAndFilter now trackTitle artistName albumTitle cands = []) := by
  intro now trackTitle artistName albumTitle cands
  have hsound : ∀ s ∈ preciseRankAndFilter now trackTitle artistName albumTitle cands,
      s.cand ∈ cands ∧ 0 < s.cand.seeders ∧ s.cand.publishDate ≤ now - 2 * msPerDay ∧
      0 < s.score ∧ s.score = jsRound (preciseScore now trackTitle artistName albumTitle s.cand) := by
    intro s hs
    rw [preciseRankAndFilter, List.mem_mergeSort, List.mem_filter] at hs
    obtain ⟨hs1, hspos⟩ := hs
    rw [List.mem_map] at hs1
    obtain ⟨c, hc, hfc⟩ := hs1
    rw [List.mem_filter] at hc
    obtain ⟨hcin, hcond⟩ := hc
    simp only [Bool.and_eq_true, decide_eq_true_eq] at hcond
    subst hfc
    exact ⟨hcin, hcond.2, hcond.1, by simpa using hspos, rfl⟩
  refine ⟨?_, hsound, ?_, ?_⟩
  · exact scoreDesc_pairwise _
  · intro c hcin hdate hseed hscore
    rw [preciseRankAndFilter, List.mem_mergeSort, List.mem_filter]
    refine ⟨List.mem_map.mpr ⟨c, List.mem_filter.mpr ⟨hcin, by simp [hdate, hseed]⟩, rfl⟩, by simpa using hscore⟩
  · intro hall
    cases hL : preciseRankAndFilter now trackTitle artistName albumTitle cands with
    | nil => rfl
    | cons s t =>
      exfalso
      have hs := hsound s (by rw [hL]; exact List.mem_cons_self s t)
      exact hall s.cand hs.1 ⟨hs.2.2.1, hs.2.1, by rw [← hs.2.2.2.2]; exact hs.2.2.2.1⟩

/-- C2 witness: the spec's end-to-end scenario — a 40-day-old FLAC
candidate with 50 seeders survives and is returned, scored by the
precise formula. -/
theorem preciseRankAndFilter_spec_witness :
    ScoredTorrent.mk (Candidate.mk "Artist - Song (FLAC)" 50 5 40 (960 * msPerDay))
        (jsRound (preciseScore (1000 * msPerDay) "Song" "Artist" none
          (Candidate.mk "Artist - Song (FLAC)" 50 5 40 (960 * msPerDay)))) ∈
      preciseRankAndFilter (1000 * msPerDay) "Song" "Artist" none
        [Candidate.mk "Artist - Song (FLAC)" 50 5 40 (960 * msPerDay),
         Candidate.mk "Artist - Song" 0 0 5 (1000 * msPerDay)] := by
  exact (preciseRankAndFilter_spec (1000 * msPerDay) "Song" "Artist" none
      [Candidate.mk "Artist - Song (FLAC)" 50 5 40 (960 * msPerDay),
       Candidate.mk "Artist - Song" 0 0 5 (1000 * msPerDay)]).2.2.1
    (Candidate.mk "Artist - Song (FLAC)" 50 5 40 (960 * msPerDay))
    (by decide) (by decide) (by decide) (by decide)

/-- C8 counterexample: the Album Pre-loader does not score candidates by
the light ranking variant alone.  For the candidate with title
`"abc def"`, 1 seeder, no size and no publish date, against the query
`"abc def"`, the pre-load score is 70 (20 seeder bonus + per word 15
substring + 10 exact-word bonus), while the spec's light variant gives
50 (20 + 2 × 15) — as does the source's own `scoreAndFilterTorrents`
light scoring. -/
theorem preloadScore_differs_from_light_variant :
    preloadScore "abc def" 0 (Candidate.mk "abc def" 1 0 0 0) = 70 ∧
    lightVariantSpecScore ["abc", "def"] (Candidate.mk "abc def" 1 0 0 0) = 50 ∧
    lightScore "abc" "def" none (Candidate.mk "abc def" 1 0 0 0) = 50 ∧
    (70 : Int) ≠ 50 := by
  decide

/-- Helper: in a list sorted non-increasing by score, an element not in
the first `n` entries scores no higher than any of the first `n`. -/
theorem mem_take_scores (L : List ScoredTorrent) (n : Nat)
    (hpair : L.Pairwise (fun a b => b.score ≤ a.score))
    (v : ScoredTorrent) (hv : v ∈ L) (hnot : v ∉ L.take n) :
    ∀ s ∈ L.take n, v.score ≤ s.score := by
  intro s hs
  have hsplit : (L.take n ++ L.drop n).Pairwise (fun a b => b.score ≤ a.score) := by
    rw [List.take_append_drop]
    exact hpair
  have hvdrop : v ∈ L.drop n := by
    have hva : v ∈ L.take n ++ L.drop n := by
      rw [List.take_append_drop]
      exact hv
    rcases List.mem_append.mp hva with h | h
    · exact absurd h hnot
    · exact h
  exact (List.pairwise_append.mp hsplit).2.2 s hs v hvdrop

/-- C8 (amended): for every album processed by the pre-loader, each
candidate with seeders > 0 is scored by the step-function seeder bonus
plus, per query word of length > 2 found in the title, 15 points plus a
further 10 when the word occurs as an exact space-separated title word,
plus a size bonus (+10 for 50–500 MB, +5 for 500–1000 MB) and a recency
bonus (+5/<30 d, +3/<90 d, +1/<365 d), and the top 20 by that score are
kept, sorted non-increasing: the output has exactly `min 20 (number of
survivors)` entries, each kept entry is a survivor carrying its pre-load
score, and every survivor is either kept or scores no higher than every
kept entry. -/
theorem preloadRankAlbum_spec :
    ∀ (searchQuery : String) (now : Int) (torrents : List Candidate),
      (preloadRankAlbum searchQuery now torrents).length ≤ 20 ∧
      (preloadRankAlbum searchQuery now torrents).length =
        min 20 ((torrents.filter (fun c => decide (0 < c.seeders))).length) ∧
      (preloadRankAlbum searchQuery now torrents).Pairwise (fun a b => b.score ≤ a.score) ∧
      (∀ s ∈ preloadRankAlbum searchQuery now torrents,
        s.cand ∈ torrents ∧ 0 < s.cand.seeders ∧
        s.score = preloadScore searchQuery now s.cand) ∧
      (∀ c ∈ torrents, 0 < c.seeders →
        ScoredTorrent.mk c (preloadScore searchQuery now c) ∈
            preloadRankAlbum searchQuery now torrents ∨
          (∀ s ∈ preloadRankAlbum searchQuery now torrents,
            preloadScore searchQuery now c ≤ s.score)) := by
  intro searchQuery now torrents
  have hdef : preloadRankAlbum searchQuery now torrents =
      (((torrents.filter (fun c => decide (0 < c.seeders))).map
          (fun c => ScoredTorrent.mk c (preloadScore searchQuery now c))).mergeSort
        (fun a b => decide (b.score ≤ a.score))).take 20 := rfl
  rw [hdef]
  refine ⟨List.length_take_le _ _, ?_,
    (scoreDesc_pairwise _).sublist (List.take_sublist _ _), ?_, ?_⟩
  · rw [List.length_take, List.length_mergeSort, List.length_map]
  · intro s hs
    have hs1 := List.mem_of_mem_take hs
    rw [List.mem_mergeSort, List.mem_map] at hs1
    obtain ⟨c, hc, hfc⟩ := hs1
    rw [List.mem_filter] at hc
    subst hfc
    exact ⟨hc.1, by simpa using hc.2, rfl⟩
  · intro c hc hse
    by_cases hmem : ScoredTorrent.mk c (preloadScore searchQuery now c) ∈
        (((torrents.filter (fun c => decide (0 < c.seeders))).map
            (fun c => ScoredTorrent.mk c (preloadScore searchQuery now c))).mergeSort
          (fun a b => decide (b.score ≤ a.score))).take 20
    · exact Or.inl hmem
    · refine Or.inr (mem_take_scores _ 20 (scoreDesc_pairwise _) _ ?_ hmem)
      exact List.mem_mergeSort.mpr
        (List.mem_map.mpr ⟨c, List.mem_filter.mpr ⟨hc, by simpa using hse⟩, rfl⟩)

unseal List.merge List.mergeSort in
/-- C8 witness: the amended description instantiated on the
counterexample candidate — it is a survivor scored 70 by the pre-load
formula, and it is kept or bounded by every kept entry. -/
theorem preloadRankAlbum_spec_witness :
    (Candidate.mk "abc def" 1 0 0 0 ∈ [Candidate.mk "abc def" 1 0 0 0] ∧
      0 < (Candidate.mk "abc def" 1 0 0 0).seeders ∧
      (70 : Int) = preloadScore "abc def" 0 (Candidate.mk "abc def" 1 0 0 0)) ∧
    (ScoredTorrent.mk (Candidate.mk "abc def" 1 0 0 0)
          (preloadScore "abc def" 0 (Candidate.mk "abc def" 1 0 0 0)) ∈
        preloadRankAlbum "abc def" 0 [Candidate.mk "abc def" 1 0 0 0] ∨
      (∀ s ∈ preloadRankAlbum "abc def" 0 [Candidate.mk "abc def" 1 0 0 0],
        preloadScore "abc def" 0 (Candidate.mk "abc def" 1 0 0 0) ≤ s.score)) := by
  refine ⟨(preloadRankAlbum_spec "abc def" 0 [Candidate.mk "abc def" 1 0 0 0]).2.2.2.1
      (ScoredTorrent.mk (Candidate.mk "abc def" 1 0 0 0) 70) (by decide), ?_⟩
  exact (preloadRankAlbum_spec "abc def" 0 [Candidate.mk "abc def" 1 0 0 0]).2.2.2.2
    (Candidate.mk "abc def" 1 0 0 0) (by decide) (by decide)

/-- C6: every async search job starts `pending` at progress 0, its
status chain only moves `pending → processing → {completed, failed}`
with monotonically non-decreasing progress ending at 100, the terminal
state is reached exactly once (no state before the last is terminal,
and the terminal state carries a result xor an error), and an exception
escaping the try block always ends the job `failed` with its error
recorded rather than propagated. -/
theorem jobTrace_lifecycle :
    ∀ o : SearchOutcome,
      (jobTrace o).head? = some initialJob ∧
      initialJob = { status := JobStatus.pending, progress := 0, hasResult := false, hasError := false } ∧
      chainOk (jobTrace o) = true ∧
      (jobTrace o).getLast? = some (searchFinalState o) ∧
      (searchFinalState o).progress = 100 ∧
      (((searchFinalState o).status = JobStatus.completed ∧ (searchFinalState o).hasResult = true ∧
          (searchFinalState o).hasError = false) ∨
        ((searchFinalState o).status = JobStatus.failed ∧ (searchFinalState o).hasError = true ∧
          (searchFinalState o).hasResult = false)) ∧
      (∀ s ∈ (jobTrace o).dropLast, s.status ≠ JobStatus.completed ∧ s.status ≠ JobStatus.failed) ∧
      (∀ k, o = SearchOutcome.throwsAfter k →
        (searchFinalState o).status = JobStatus.failed ∧ (searchFinalState o).hasError = true) := by
  intro o
  cases o with
  | completes =>
    exact ⟨rfl, rfl, by decide, by decide, rfl, by decide, by decide, fun k h => nomatch h⟩
  | throwsAfter k =>
    rcases k with _ | _ | _ | _ | _ | k
    · exact ⟨rfl, rfl, by decide, by decide, rfl, by decide, by decide, fun _ _ => by decide⟩
    · exact ⟨rfl, rfl, by decide, by decide, rfl, by decide, by decide, fun _ _ => by decide⟩
    · exact ⟨rfl, rfl, by decide, by decide, rfl, by decide, by decide, fun _ _ => by decide⟩
    · exact ⟨rfl, rfl, by decide, by decide, rfl, by decide, by decide, fun _ _ => by decide⟩
    · exact ⟨rfl, rfl, by decide, by decide, rfl, by decide, by decide, fun _ _ => by decide⟩
    · have h6 : searchJobWrites (SearchOutcome.throwsAfter (k + 5)) =
          searchProgressWrites ++ [setFailed] := by
        rw [searchJobWrites]
        congr 1
        exact List.take_of_length_le (by simp [searchProgressWrites])
      refine ⟨rfl, rfl, ?_, ?_, rfl, Or.inr ⟨rfl, rfl, rfl⟩, ?_, fun _ _ => ⟨rfl, rfl⟩⟩
      · rw [jobTrace, h6]; decide
      · rw [jobTrace, h6]; rfl
      · rw [jobTrace, h6]; decide

/-- C6 witness: a background execution that throws after the third
progress write ends `failed` with the error recorded. -/
theorem jobTrace_lifecycle_witness :
    (searchFinalState (SearchOutcome.throwsAfter 2)).status = JobStatus.failed ∧
    (searchFinalState (SearchOutcome.throwsAfter 2)).hasError = true :=
  (jobTrace_lifecycle (SearchOutcome.throwsAfter 2)).2.2.2.2.2.2.2 2 rfl
